import Mathlib

/-!
# GameVault client library: formal model and verification

A shallow embedding, in Lean 4, of the data model and the algorithms of the
GameVault client-side library (models `User`, `Game`, `Review`, the
`ApiService` request client, the `FormValidator` engine and the event
emitters), together with theorems settling the documented behavioural
properties.

Conventions of the embedding:
* JS numbers are modelled as `ℚ` (rating values, averages) or `ℤ`/`ℕ`
  (timestamps, status codes, counters); `Math.round` becomes `jsRound`.
* A JS `Set` is modelled as a duplicate-free `List String` in insertion
  order (`jsSetAdd`, `jsSetDelete`); its `size` is the list length.
* A JS `Map` keyed by strings is an association list (`mapGet`, `mapSet`,
  `mapDelete`).
* Methods that mutate `this` and return a boolean are modelled as functions
  returning `Bool × State`.
* A callback that may throw is `α → Except ε Unit`.
-/

namespace GameVault

/-! ## JS primitives -/

/-- JS `Math.round`: round half toward positive infinity. -/
def jsRound (q : ℚ) : ℤ := ⌊q + 1 / 2⌋

/-- JS `Set.add`: append the element unless already present (insertion order kept). -/
def jsSetAdd (x : String) (s : List String) : List String :=
  if x ∈ s then s else s ++ [x]

/-- JS `Set.delete`: remove the element. -/
def jsSetDelete (x : String) (s : List String) : List String :=
  s.filter (fun y => y ≠ x)

/-! ## Game ratings (unnamed/part_000, class Game)

`Game` is restricted to the fields that `addRating`, `removeRating`,
`recalculateRating` and `getSimilarGames` read or write. -/

structure Rating where
  value : ℚ
  userId : Option String
  timestamp : ℤ
deriving DecidableEq

structure GameStats where
  averageRating : ℚ
  ratingsCount : ℕ
deriving DecidableEq

structure Game where
  id : String
  developer : String
  publisher : String
  genre : List String
  tags : List String
  platform : List String
  ratings : List Rating
  stats : GameStats
deriving DecidableEq

/-- Source: `this.ratings.reduce((total, rating) => total + rating.value, 0)`. -/
def ratingSum (l : List Rating) : ℚ :=
  l.foldl (fun total r => total + r.value) 0

/-- Source: `Math.round((sum / this.ratings.length) * 10) / 10`. -/
def averageOfRatings (l : List Rating) : ℚ :=
  (jsRound ((ratingSum l / l.length) * 10) : ℚ) / 10

/-- Source: `Game.recalculateRating` (part_000 lines 1036-1046). -/
def Game.recalculateRating (g : Game) : Game :=
  if g.ratings.length = 0 then
    { g with stats := { averageRating := 0, ratingsCount := 0 } }
  else
    { g with stats := { averageRating := averageOfRatings g.ratings,
                        ratingsCount := g.ratings.length } }

/-- JS truthiness of the `userId` argument (`if (userId)`): `null` and the
empty string are falsy. -/
def jsTruthyId : Option String → Bool
  | none => false
  | some s => !(s = "")

/-- Source: `Game.addRating` (part_000 lines 989-1013); `now` models `new Date()`. -/
def Game.addRating (g : Game) (rating : ℚ) (userId : Option String) (now : ℤ) :
    Bool × Game :=
  if rating < 0 ∨ rating > 10 then (false, g)
  else
    let ratingObj : Rating := { value := rating, userId := userId, timestamp := now }
    let ratings1 :=
      if jsTruthyId userId then g.ratings.filter (fun r => r.userId ≠ userId)
      else g.ratings
    let g1 : Game := { g with ratings := ratings1 ++ [ratingObj] }
    (true, g1.recalculateRating)

/-- Source: `Game.removeRating` (part_000 lines 1020-1031). -/
def Game.removeRating (g : Game) (userId : Option String) : Bool × Game :=
  let ratings1 := g.ratings.filter (fun r => r.userId ≠ userId)
  let g1 : Game := { g with ratings := ratings1 }
  if ratings1.length < g.ratings.length then (true, g1.recalculateRating)
  else (false, g1)

/-- The documented invariant: the stored average is the mean of the current
rating entries rounded to one decimal, and `0` for no entries. -/
def ratingInvariant (g : Game) : Prop :=
  g.stats.averageRating = if g.ratings = [] then 0 else averageOfRatings g.ratings

lemma ratingInvariant_setRatings (g : Game) (l : List Rating)
    (hl : l = g.ratings) (h : ratingInvariant g) :
    ratingInvariant { g with ratings := l } := by
  subst hl
  exact h

lemma recalculateRating_ratings (g : Game) :
    g.recalculateRating.ratings = g.ratings := by
  unfold Game.recalculateRating
  split <;> rfl

lemma ratingInvariant_recalculateRating (g : Game) :
    ratingInvariant g.recalculateRating := by
  unfold ratingInvariant Game.recalculateRating
  by_cases h : g.ratings.length = 0
  · rw [List.length_eq_zero] at h
    simp [h]
  · rw [List.length_eq_zero] at h
    simp [h, if_neg h]

/-- Claim C1: after every `addRating` and every `removeRating` call, the
stored `stats.averageRating` equals the arithmetic mean of the current
rating entries rounded to one decimal (`jsRound` of ten times the mean,
divided by ten), and equals `0` when the game has no rating entries;
i.e. `ratingInvariant` is preserved by both operations. -/
theorem rating_invariant_after_add_remove
    (g : Game) (r : ℚ) (u u2 : Option String) (now : ℤ)
    (h : ratingInvariant g) :
    ratingInvariant (g.addRating r u now).2 ∧ ratingInvariant (g.removeRating u2).2 := by
  constructor
  · unfold Game.addRating
    by_cases hr : r < 0 ∨ r > 10
    · simpa [hr] using h
    · simp only [if_neg hr]
      exact ratingInvariant_recalculateRating _
  · unfold Game.removeRating
    by_cases hl : (g.ratings.filter (fun r => r.userId ≠ u2)).length < g.ratings.length
    · simp only [if_pos hl]
      exact ratingInvariant_recalculateRating _
    · simp only [if_neg hl]
      have hle := List.length_filter_le (fun r => decide (r.userId ≠ u2)) g.ratings
      have hlen : (g.ratings.filter (fun r => r.userId ≠ u2)).length = g.ratings.length :=
        le_antisymm hle (le_of_not_lt hl)
      have hfil : g.ratings.filter (fun r => r.userId ≠ u2) = g.ratings :=
        (List.filter_sublist g.ratings).eq_of_length hlen
      exact ratingInvariant_setRatings g _ hfil h

/-- Witness for `rating_invariant_after_add_remove` at a concrete game. -/
theorem rating_invariant_after_add_remove_witness :
    ratingInvariant (Game.addRating
      { id := "g1", developer := "d", publisher := "p", genre := [], tags := [],
        platform := [], ratings := [], stats := { averageRating := 0, ratingsCount := 0 } }
      7 (some "alice") 0).2 :=
  (rating_invariant_after_add_remove
    { id := "g1", developer := "d", publisher := "p", genre := [], tags := [],
      platform := [], ratings := [], stats := { averageRating := 0, ratingsCount := 0 } }
    7 (some "alice") none 0 (by simp [ratingInvariant])).1

/-- Claim C8: a rating value outside `[0, 10]` is rejected: `addRating`
returns `false` and the game state is unchanged. -/
theorem addRating_rejects_out_of_range
    (g : Game) (r : ℚ) (u : Option String) (now : ℤ)
    (h : r < 0 ∨ r > 10) :
    g.addRating r u now = (false, g) := by
  unfold Game.addRating
  rw [if_pos h]

/-- Witness for `addRating_rejects_out_of_range` at rating 11. -/
theorem addRating_rejects_out_of_range_witness :
    Game.addRating
      { id := "g1", developer := "d", publisher := "p", genre := [], tags := [],
        platform := [], ratings := [], stats := { averageRating := 0, ratingsCount := 0 } }
      11 none 0
    = (false,
      { id := "g1", developer := "d", publisher := "p", genre := [], tags := [],
        platform := [], ratings := [], stats := { averageRating := 0, ratingsCount := 0 } }) :=
  addRating_rejects_out_of_range _ 11 none 0 (Or.inr (by norm_num))

lemma filter_eq_after_filter_ne (l : List Rating) (u : Option String) :
    (l.filter (fun rt => rt.userId ≠ u)).filter (fun rt => rt.userId = u) = [] := by
  induction l with
  | nil => rfl
  | cons a t ih =>
    by_cases h : a.userId = u
    · simp [List.filter_cons, h, ih]
    · simp [List.filter_cons, h, ih]

lemma filter_eq_comm_filter_ne (l : List Rating) (u v : Option String) (huv : v ≠ u) :
    (l.filter (fun rt => rt.userId ≠ u)).filter (fun rt => rt.userId = v)
      = l.filter (fun rt => rt.userId = v) := by
  rw [List.filter_filter]
  apply List.filter_congr
  intro a _
  by_cases hv : a.userId = v
  · have hu : a.userId ≠ u := by
      rw [hv]
      exact huv
    simp [hv, hu, huv]
  · simp [hv]

/-- Claim C10 counterexample: user ids are checked with JS truthiness
(`if (userId)`), not against `null`: for the non-null but falsy user id `""`,
`addRating` does not remove the existing entry of the same id, so the
ratings list ends with two entries of user id `""`. -/
theorem addRating_falsy_userId_duplicate :
    ¬ ((((Game.addRating
        { id := "g1", developer := "d", publisher := "p", genre := [], tags := [],
          platform := [],
          ratings := [{ value := 5, userId := some "", timestamp := 0 }],
          stats := { averageRating := 5, ratingsCount := 1 } }
        7 (some "") 1).2).ratings.filter (fun rt => rt.userId = some "")).length ≤ 1) := by
  decide

/-- Claim C10 (amended): for every truthy user id (a non-null, nonempty
string), a successful `addRating` first removes every existing entry of that
user, so afterwards the ratings list holds exactly one entry with that id,
and the entries of every other user id are untouched (a repeat rating by the
same user replaces the previous one). For a falsy id (`null` or `""`) the
removal step is skipped. -/
theorem addRating_truthy_userId_replaces
    (g : Game) (r : ℚ) (u : String) (now : ℤ)
    (hu : u ≠ "") (h0 : 0 ≤ r) (h10 : r ≤ 10) :
    (((g.addRating r (some u) now).2).ratings.filter
        (fun rt => rt.userId = some u)).length = 1
    ∧ ∀ v : String, v ≠ u →
        ((g.addRating r (some u) now).2).ratings.filter (fun rt => rt.userId = some v)
          = g.ratings.filter (fun rt => rt.userId = some v) := by
  have hcond : ¬ (r < 0 ∨ r > 10) := by
    push_neg
    exact ⟨h0, h10⟩
  have htruthy : jsTruthyId (some u) = true := by
    simp [jsTruthyId, hu]
  have hratings : ((g.addRating r (some u) now).2).ratings
      = g.ratings.filter (fun rt => rt.userId ≠ some u)
        ++ [{ value := r, userId := some u, timestamp := now }] := by
    unfold Game.addRating
    rw [if_neg hcond]
    simp only [htruthy, if_pos]
    rw [recalculateRating_ratings]
  constructor
  · rw [hratings, List.filter_append, filter_eq_after_filter_ne]
    simp
  · intro v hv
    rw [hratings, List.filter_append,
      filter_eq_comm_filter_ne g.ratings (some u) (some v) (by simpa using hv)]
    simp [hv, Ne.symm hv]

/-- Witness for `addRating_truthy_userId_replaces`: re-rating by the same
user leaves a single entry for that user. -/
theorem addRating_truthy_userId_replaces_witness :
    (((Game.addRating
        { id := "g1", developer := "d", publisher := "p", genre := [], tags := [],
          platform := [],
          ratings := [{ value := 5, userId := some "alice", timestamp := 0 }],
          stats := { averageRating := 5, ratingsCount := 1 } }
        7 (some "alice") 1).2).ratings.filter
      (fun rt => rt.userId = some "alice")).length = 1 :=
  (addRating_truthy_userId_replaces _ 7 "alice" 1 (by decide) (by norm_num) (by norm_num)).1

/-! ## User social graph (unnamed/part_000, class User)

`User` is restricted to the fields `addFriend` and `blockUser` touch.
`updateStats({ friendsCount })` merges into the stats record. -/

structure UserStats where
  friendsCount : ℕ
deriving DecidableEq

structure User where
  id : String
  friends : List String
  blockedUsers : List String
  stats : UserStats
deriving DecidableEq

/-- Source: `User.addFriend` (part_000 lines 324-336). -/
def User.addFriend (u : User) (userId : String) : Bool × User :=
  if userId ∈ u.friends ∨ userId = u.id then (false, u)
  else
    let friends1 := jsSetAdd userId u.friends
    (true, { u with friends := friends1, stats := { friendsCount := friends1.length } })

/-- Source: `User.blockUser` (part_000 lines 362-373). -/
def User.blockUser (u : User) (userId : String) : Bool × User :=
  if userId ∈ u.blockedUsers ∨ userId = u.id then (false, u)
  else
    (true, { u with blockedUsers := jsSetAdd userId u.blockedUsers,
                    friends := jsSetDelete userId u.friends })

/-- Claim C3 counterexample: after blocking user `"2"`, `"2"` is in
`blockedUsers`, yet `addFriend "2"` succeeds (returns `true`) and puts `"2"`
back into the friends set: `addFriend` never consults `blockedUsers`. -/
theorem addFriend_succeeds_while_blocked :
    "2" ∈ ((User.blockUser
        { id := "1", friends := ["2"], blockedUsers := [],
          stats := { friendsCount := 1 } } "2").2).blockedUsers
    ∧ (((User.blockUser
        { id := "1", friends := ["2"], blockedUsers := [],
          stats := { friendsCount := 1 } } "2").2).addFriend "2").1 = true
    ∧ "2" ∈ ((((User.blockUser
        { id := "1", friends := ["2"], blockedUsers := [],
          stats := { friendsCount := 1 } } "2").2).addFriend "2").2).friends := by
  decide

/-- Claim C3 (amended): when the id is not yet blocked and is not the user
itself, `blockUser` removes the id from the friends set and records the
block; but `addFriend` checks only the friends set and the own id, so a
subsequent `addFriend` with the blocked id succeeds and re-adds it to the
friends set (the block does not make `addFriend` fail). -/
theorem blockUser_then_addFriend_behavior
    (u : User) (userId : String)
    (hnb : userId ∉ u.blockedUsers) (hne : userId ≠ u.id) :
    (u.blockUser userId).1 = true
    ∧ userId ∉ ((u.blockUser userId).2).friends
    ∧ userId ∈ ((u.blockUser userId).2).blockedUsers
    ∧ (((u.blockUser userId).2).addFriend userId).1 = true
    ∧ userId ∈ ((((u.blockUser userId).2).addFriend userId).2).friends := by
  have hcond : ¬ (userId ∈ u.blockedUsers ∨ userId = u.id) := by
    intro h
    rcases h with h | h
    · exact hnb h
    · exact hne h
  have hb : (u.blockUser userId).2
      = { u with blockedUsers := jsSetAdd userId u.blockedUsers,
                 friends := jsSetDelete userId u.friends } := by
    unfold User.blockUser
    rw [if_neg hcond]
  have hret : (u.blockUser userId).1 = true := by
    unfold User.blockUser
    rw [if_neg hcond]
  have hnf : userId ∉ jsSetDelete userId u.friends := by
    intro h
    unfold jsSetDelete at h
    have := List.of_mem_filter h
    simp at this
  have hmb : userId ∈ jsSetAdd userId u.blockedUsers := by
    unfold jsSetAdd
    by_cases h : userId ∈ u.blockedUsers
    · rw [if_pos h]
      exact h
    · rw [if_neg h]
      simp
  have hcond2 : ¬ (userId ∈ jsSetDelete userId u.friends ∨ userId = u.id) := by
    intro h
    rcases h with h | h
    · exact hnf h
    · exact hne h
  refine ⟨hret, ?_, ?_, ?_, ?_⟩
  · rw [hb]
    exact hnf
  · rw [hb]
    exact hmb
  · rw [hb]
    unfold User.addFriend
    rw [if_neg hcond2]
  · rw [hb]
    unfold User.addFriend
    rw [if_neg hcond2]
    simp only
    unfold jsSetAdd
    rw [if_neg hnf]
    simp

/-- Witness for `blockUser_then_addFriend_behavior` at a concrete user. -/
theorem blockUser_then_addFriend_behavior_witness :
    (((User.blockUser
        { id := "1", friends := ["2", "3"], blockedUsers := [],
          stats := { friendsCount := 2 } } "3").2).addFriend "3").1 = true :=
  (blockUser_then_addFriend_behavior
    { id := "1", friends := ["2", "3"], blockedUsers := [],
      stats := { friendsCount := 2 } } "3" (by decide) (by decide)).2.2.2.1

/-! ## Review votes (assets/js/models/Review.js)

`Review` is restricted to the author id, the two voter sets and the vote
counters of the stats aggregate. -/

structure ReviewStats where
  helpfulVotes : ℕ
  unhelpfulVotes : ℕ
deriving DecidableEq

structure Review where
  userId : String
  helpfulVotes : List String
  unhelpfulVotes : List String
  stats : ReviewStats
deriving DecidableEq

/-- Source: `Review.addHelpfulVote` (Review.js lines 194-214). The voter is removed
from the unhelpful set first; the stats counters are refreshed only when the
voter was not already in the helpful set (`wasAdded`). -/
def Review.addHelpfulVote (rv : Review) (userId : String) : Bool × Review :=
  if userId = rv.userId then (false, rv)
  else
    let unhelpful1 := jsSetDelete userId rv.unhelpfulVotes
    let helpful1 := jsSetAdd userId rv.helpfulVotes
    if userId ∈ rv.helpfulVotes then
      (false, { rv with helpfulVotes := helpful1, unhelpfulVotes := unhelpful1 })
    else
      (true, { userId := rv.userId, helpfulVotes := helpful1,
               unhelpfulVotes := unhelpful1,
               stats := { helpfulVotes := helpful1.length,
                          unhelpfulVotes := unhelpful1.length } })

/-- Source: `Review.addUnhelpfulVote` (Review.js lines 221-241), the mirror image. -/
def Review.addUnhelpfulVote (rv : Review) (userId : String) : Bool × Review :=
  if userId = rv.userId then (false, rv)
  else
    let helpful1 := jsSetDelete userId rv.helpfulVotes
    let unhelpful1 := jsSetAdd userId rv.unhelpfulVotes
    if userId ∈ rv.unhelpfulVotes then
      (false, { rv with helpfulVotes := helpful1, unhelpfulVotes := unhelpful1 })
    else
      (true, { userId := rv.userId, helpfulVotes := helpful1,
               unhelpfulVotes := unhelpful1,
               stats := { helpfulVotes := helpful1.length,
                          unhelpfulVotes := unhelpful1.length } })

lemma mem_jsSetAdd_self (x : String) (s : List String) : x ∈ jsSetAdd x s := by
  unfold jsSetAdd
  by_cases h : x ∈ s
  · rw [if_pos h]
    exact h
  · rw [if_neg h]
    simp

lemma not_mem_jsSetDelete_self (x : String) (s : List String) :
    x ∉ jsSetDelete x s := by
  intro h
  have := List.of_mem_filter h
  simp at this

lemma jsSetAdd_nodup (x : String) (s : List String) (h : s.Nodup) :
    (jsSetAdd x s).Nodup := by
  unfold jsSetAdd
  by_cases hm : x ∈ s
  · rw [if_pos hm]
    exact h
  · rw [if_neg hm]
    simpa using List.Nodup.append h (List.nodup_singleton x) (by simpa using hm)

lemma jsSetDelete_nodup (x : String) (s : List String) (h : s.Nodup) :
    (jsSetDelete x s).Nodup :=
  List.Nodup.filter _ h

/-- Claim C2: casting a vote of one type after an earlier vote of the
opposite type by the same voter leaves the voter in exactly the newly cast
vote set, and refreshes `stats.helpfulVotes` and `stats.unhelpfulVotes` to
the sizes of the two sets (the lists stay duplicate-free, so length is the
JS `Set.size`). First conjunct: helpful after unhelpful; second conjunct:
unhelpful after helpful. -/
theorem vote_switch_exclusive_and_counts
    (rv : Review) (v : String)
    (hv : v ≠ rv.userId)
    (hnd1 : rv.helpfulVotes.Nodup) (hnd2 : rv.unhelpfulVotes.Nodup) :
    (v ∈ rv.unhelpfulVotes → v ∉ rv.helpfulVotes →
      v ∈ ((rv.addHelpfulVote v).2).helpfulVotes
      ∧ v ∉ ((rv.addHelpfulVote v).2).unhelpfulVotes
      ∧ ((rv.addHelpfulVote v).2).stats.helpfulVotes
          = ((rv.addHelpfulVote v).2).helpfulVotes.length
      ∧ ((rv.addHelpfulVote v).2).stats.unhelpfulVotes
          = ((rv.addHelpfulVote v).2).unhelpfulVotes.length
      ∧ ((rv.addHelpfulVote v).2).helpfulVotes.Nodup
      ∧ ((rv.addHelpfulVote v).2).unhelpfulVotes.Nodup)
    ∧ (v ∈ rv.helpfulVotes → v ∉ rv.unhelpfulVotes →
      v ∈ ((rv.addUnhelpfulVote v).2).unhelpfulVotes
      ∧ v ∉ ((rv.addUnhelpfulVote v).2).helpfulVotes
      ∧ ((rv.addUnhelpfulVote v).2).stats.helpfulVotes
          = ((rv.addUnhelpfulVote v).2).helpfulVotes.length
      ∧ ((rv.addUnhelpfulVote v).2).stats.unhelpfulVotes
          = ((rv.addUnhelpfulVote v).2).unhelpfulVotes.length
      ∧ ((rv.addUnhelpfulVote v).2).helpfulVotes.Nodup
      ∧ ((rv.addUnhelpfulVote v).2).unhelpfulVotes.Nodup) := by
  constructor
  · intro _ hnh
    have hres : (rv.addHelpfulVote v).2
        = { userId := rv.userId, helpfulVotes := jsSetAdd v rv.helpfulVotes,
            unhelpfulVotes := jsSetDelete v rv.unhelpfulVotes,
            stats := { helpfulVotes := (jsSetAdd v rv.helpfulVotes).length,
                       unhelpfulVotes := (jsSetDelete v rv.unhelpfulVotes).length } } := by
      unfold Review.addHelpfulVote
      rw [if_neg hv, if_neg hnh]
    rw [hres]
    exact ⟨mem_jsSetAdd_self v _, not_mem_jsSetDelete_self v _, rfl, rfl,
      jsSetAdd_nodup v _ hnd1, jsSetDelete_nodup v _ hnd2⟩
  · intro _ hnu
    have hres : (rv.addUnhelpfulVote v).2
        = { userId := rv.userId, helpfulVotes := jsSetDelete v rv.helpfulVotes,
            unhelpfulVotes := jsSetAdd v rv.unhelpfulVotes,
            stats := { helpfulVotes := (jsSetDelete v rv.helpfulVotes).length,
                       unhelpfulVotes := (jsSetAdd v rv.unhelpfulVotes).length } } := by
      unfold Review.addUnhelpfulVote
      rw [if_neg hv, if_neg hnu]
    rw [hres]
    exact ⟨mem_jsSetAdd_self v _, not_mem_jsSetDelete_self v _, rfl, rfl,
      jsSetDelete_nodup v _ hnd1, jsSetAdd_nodup v _ hnd2⟩

/-- Witness for `vote_switch_exclusive_and_counts` at a concrete review. -/
theorem vote_switch_exclusive_and_counts_witness :
    "bob" ∈ ((Review.addHelpfulVote
      { userId := "alice", helpfulVotes := [], unhelpfulVotes := ["bob"],
        stats := { helpfulVotes := 0, unhelpfulVotes := 1 } } "bob").2).helpfulVotes
    ∧ "bob" ∉ ((Review.addHelpfulVote
      { userId := "alice", helpfulVotes := [], unhelpfulVotes := ["bob"],
        stats := { helpfulVotes := 0, unhelpfulVotes := 1 } } "bob").2).unhelpfulVotes :=
  have h := (vote_switch_exclusive_and_counts
    { userId := "alice", helpfulVotes := [], unhelpfulVotes := ["bob"],
      stats := { helpfulVotes := 0, unhelpfulVotes := 1 } } "bob"
    (by decide) (by decide) (by decide)).1 (by decide) (by decide)
  ⟨h.1, h.2.1⟩

/-! ## Event emitters

Two emitter implementations exist in the repository:
* `EventEmitter.emit` in assets/js/utils.js (lines 296-300), inherited by
  `ApiService`, `StateManager` and `AuthManager`: it iterates the listener
  array with no try/catch around a callback.
* The per-entity `emit` on `User`, `Game` and `Review` (e.g. Review.js
  lines 663-673): each callback runs inside try/catch and a thrown error is
  logged.

A callback is `α → Except ε Unit`; running a list of callbacks yields the
number of callbacks that were invoked, plus the escaped exception
(no-catch) or the list of caught exceptions (catch). -/

/-- Source: `EventEmitter.emit` of utils.js: `forEach(callback => callback(data))`
with no try/catch: a thrown exception escapes and ends the iteration. -/
def runListenersNoCatch {α ε : Type} :
    List (α → Except ε Unit) → α → ℕ × Option ε
  | [], _ => (0, none)
  | c :: rest, data =>
    match c data with
    | Except.error e => (1, some e)
    | Except.ok _ =>
      let r := runListenersNoCatch rest data
      (r.1 + 1, r.2)

/-- The per-entity `emit` of User/Game/Review: each callback runs inside
try/catch, a thrown error is caught and logged, and iteration continues. -/
def runListenersCatch {α ε : Type} :
    List (α → Except ε Unit) → α → ℕ × List ε
  | [], _ => (0, [])
  | c :: rest, data =>
    let r := runListenersCatch rest data
    match c data with
    | Except.error e => (r.1 + 1, e :: r.2)
    | Except.ok _ => (r.1 + 1, r.2)

/-- Claim C9 counterexample: in the shared `EventEmitter` of utils.js a
throwing first listener prevents the second listener of the same event from
running: of the two subscribed listeners only one is invoked. -/
theorem sharedEmitter_stops_after_throw :
    (runListenersNoCatch
      [fun _ => (Except.error "boom" : Except String Unit), fun _ => Except.ok ()]
      ()).1 = 1
    ∧ ([fun _ => (Except.error "boom" : Except String Unit),
        fun _ => Except.ok ()] : List (Unit → Except String Unit)).length = 2 := by
  exact ⟨rfl, rfl⟩

/-- Claim C9 (amended): the per-entity emitters of `User`, `Game` and
`Review` catch and log a listener exception per listener, so every
subscribed listener runs; the shared `EventEmitter.emit` of utils.js
(inherited by `ApiService`, `StateManager` and `AuthManager`) has no such
catch: when the listener list splits as `pre ++ c :: post` with every
listener of `pre` returning normally and `c` throwing, exactly
`pre.length + 1` listeners run, so the listeners of `post` never run. -/
theorem emit_exception_policy {α ε : Type} (cbs : List (α → Except ε Unit)) (data : α) :
    (runListenersCatch cbs data).1 = cbs.length
    ∧ (∀ pre c post, cbs = pre ++ c :: post →
        (∀ p ∈ pre, p data = Except.ok ()) →
        (∀ e : ε, c data = Except.error e →
          (runListenersNoCatch cbs data).1 = pre.length + 1)) := by
  constructor
  · induction cbs with
    | nil => rfl
    | cons c rest ih =>
      unfold runListenersCatch
      cases c data <;> simpa using ih
  · intro pre c post hsplit hok e herr
    subst hsplit
    induction pre with
    | nil =>
      show (runListenersNoCatch (c :: post) data).1 = 0 + 1
      unfold runListenersNoCatch
      rw [herr]
    | cons p rest ih =>
      have hp : p data = Except.ok () := hok p (by simp)
      have hrest : ∀ q ∈ rest, q data = Except.ok () := by
        intro q hq
        exact hok q (by simp [hq])
      have := ih hrest
      simp only [List.cons_append]
      unfold runListenersNoCatch
      rw [hp]
      simp only [this]
      simp [List.length_cons]

/-- Witness for `emit_exception_policy`: both halves at concrete listener
lists. -/
theorem emit_exception_policy_witness :
    (runListenersCatch
      [fun _ => (Except.error "boom" : Except String Unit), fun _ => Except.ok ()]
      ()).1 = 2
    ∧ (runListenersNoCatch
      [fun _ => (Except.ok () : Except String Unit), fun _ => Except.error "boom",
       fun _ => Except.ok ()] ()).1 = 2 :=
  ⟨(emit_exception_policy
      [fun _ => (Except.error "boom" : Except String Unit), fun _ => Except.ok ()] ()).1,
   (emit_exception_policy
      [fun _ => (Except.ok () : Except String Unit), fun _ => Except.error "boom",
       fun _ => Except.ok ()] ()).2
     [fun _ => Except.ok ()] (fun _ => Except.error "boom") [fun _ => Except.ok ()]
     rfl (by intro p hp; simp at hp; rw [hp]) "boom" rfl⟩

/-! ## ApiService retry loop (assets/js/services/ApiService.js, executeRequest)

`executeRequest` is a sequential loop over attempt numbers; each network
attempt either resolves to a processed response or throws an error carrying
an optional HTTP status (`error.status` is absent for pure network
failures). The loop is modelled as a pure function of the per-attempt
outcomes; the trace records how many attempts ran and the backoff delays
awaited between them. -/

inductive AttemptOutcome (δ : Type) where
  | success (resp : δ)
  | failure (status : Option ℤ)

/-- The fail-fast test of executeRequest (lines 238-239):
`error.status >= 400 && error.status < 500 && status !== 408 && status !== 429`;
a missing status compares false in JS. -/
def isClientErrorNoRetry : Option ℤ → Bool
  | some s => decide (400 ≤ s) && decide (s < 500) && decide (s ≠ 408) && decide (s ≠ 429)
  | none => false

structure RetryTrace (δ : Type) where
  attemptsMade : ℕ
  delays : List ℕ
  outcome : Except (Option ℤ) δ

/-- The body of the `for (let attempt = 0; attempt <= config.retries; ...)`
loop of `executeRequest` (lines 219-255). `remaining` is
`config.retries - attempt`; the delay before the next attempt is
`config.retryDelay * Math.pow(2, attempt)`. On the last attempt
(`remaining = 0`) a failure ends the loop whether or not it is a fail-fast
client error, with the same resulting error, so the two breaks are merged. -/
def executeRequestLoop {δ : Type} (outcomes : ℕ → AttemptOutcome δ)
    (retryDelay : ℕ) : ℕ → ℕ → RetryTrace δ
  | attempt, 0 =>
    match outcomes attempt with
    | AttemptOutcome.success r =>
      { attemptsMade := 1, delays := [], outcome := Except.ok r }
    | AttemptOutcome.failure st =>
      { attemptsMade := 1, delays := [], outcome := Except.error st }
  | attempt, n + 1 =>
    match outcomes attempt with
    | AttemptOutcome.success r =>
      { attemptsMade := 1, delays := [], outcome := Except.ok r }
    | AttemptOutcome.failure st =>
      if isClientErrorNoRetry st then
        { attemptsMade := 1, delays := [], outcome := Except.error st }
      else
        let rest := executeRequestLoop outcomes retryDelay (attempt + 1) n
        { attemptsMade := rest.attemptsMade + 1,
          delays := retryDelay * 2 ^ attempt :: rest.delays,
          outcome := rest.outcome }

/-- Model of `executeRequest` for a request whose attempt `i` yields `outcomes i`. -/
def executeRequest {δ : Type} (outcomes : ℕ → AttemptOutcome δ)
    (retries retryDelay : ℕ) : RetryTrace δ :=
  executeRequestLoop outcomes retryDelay 0 retries

lemma executeRequestLoop_all_503 {δ : Type} (outcomes : ℕ → AttemptOutcome δ)
    (retryDelay : ℕ) (hall : ∀ i, outcomes i = AttemptOutcome.failure (some 503)) :
    ∀ remaining attempt,
      (executeRequestLoop outcomes retryDelay attempt remaining).attemptsMade = remaining + 1
      ∧ (executeRequestLoop outcomes retryDelay attempt remaining).delays
          = (List.range remaining).map (fun k => retryDelay * 2 ^ (attempt + k)) := by
  intro remaining
  induction remaining with
  | zero =>
    intro attempt
    simp [executeRequestLoop, hall]
  | succ n ih =>
    intro attempt
    have h503 : isClientErrorNoRetry (some 503) = false := by decide
    have h1 := (ih (attempt + 1)).1
    have h2 := (ih (attempt + 1)).2
    simp only [executeRequestLoop, hall, h503, Bool.false_eq_true, if_false]
    constructor
    · simp [h1]
    · rw [h2, List.range_succ_eq_map, List.map_cons, List.map_map]
      congr 1
      apply List.map_congr_left
      intro k _
      simp only [Function.comp_apply]
      congr 2
      omega

/-- Claim C4: (first conjunct) a request whose attempts all fail with
status 503 makes the initial attempt plus exactly `retries` retries, and
the delay awaited before attempt `k + 1` is `retryDelay * 2 ^ k`;
(second conjunct) a request whose first attempt fails with a status in
`[400, 500)` other than 408 and 429 makes no retry: one attempt, no delay. -/
theorem retry_policy_503_and_client_error {δ : Type}
    (outcomes : ℕ → AttemptOutcome δ) (retries retryDelay : ℕ) :
    ((∀ i, outcomes i = AttemptOutcome.failure (some 503)) →
      (executeRequest outcomes retries retryDelay).attemptsMade = retries + 1
      ∧ (executeRequest outcomes retries retryDelay).delays
          = (List.range retries).map (fun k => retryDelay * 2 ^ k))
    ∧ (∀ s : ℤ, outcomes 0 = AttemptOutcome.failure (some s) →
        400 ≤ s → s < 500 → s ≠ 408 → s ≠ 429 →
        (executeRequest outcomes retries retryDelay).attemptsMade = 1
        ∧ (executeRequest outcomes retries retryDelay).delays = []) := by
  constructor
  · intro hall
    have h := executeRequestLoop_all_503 outcomes retryDelay hall retries 0
    unfold executeRequest
    refine ⟨h.1, ?_⟩
    rw [h.2]
    apply List.map_congr_left
    intro k _
    rw [Nat.zero_add]
  · intro s h0 h400 h500 h408 h429
    have hfast : isClientErrorNoRetry (some s) = true := by
      simp [isClientErrorNoRetry, h400, h500, h408, h429]
    unfold executeRequest
    cases retries with
    | zero => simp [executeRequestLoop, h0, hfast]
    | succ n => simp [executeRequestLoop, h0, hfast]

/-- Witness for `retry_policy_503_and_client_error`: three attempts and
delays 100, 200 for an all-503 request with `retries = 2`,
`retryDelay = 100`; a single attempt for a 403. -/
theorem retry_policy_503_and_client_error_witness :
    (executeRequest (fun _ => (AttemptOutcome.failure (some 503) : AttemptOutcome Unit))
      2 100).attemptsMade = 3
    ∧ (executeRequest (fun _ => (AttemptOutcome.failure (some 503) : AttemptOutcome Unit))
      2 100).delays = [100, 200]
    ∧ (executeRequest (fun _ => (AttemptOutcome.failure (some 403) : AttemptOutcome Unit))
      2 100).attemptsMade = 1 :=
  have h503 := (retry_policy_503_and_client_error
    (fun _ => (AttemptOutcome.failure (some 503) : AttemptOutcome Unit)) 2 100).1
    (fun _ => rfl)
  have h403 := (retry_policy_503_and_client_error
    (fun _ => (AttemptOutcome.failure (some 403) : AttemptOutcome Unit)) 2 100).2
    403 rfl (by norm_num) (by norm_num) (by norm_num) (by norm_num)
  ⟨h503.1, by rw [h503.2]; rfl, h403.1⟩

/-! ## ApiService GET cache (request / getFromCache / setCache)

The response cache is a `Map` from full URL to `{ data, expiry, timestamp }`.
`request`, restricted to a GET with `cache: true` and run sequentially to
completion (so `pendingRequests` is empty at every call), is a function of
the cache, the URL, the configured TTL, the network outcome and the clock
readings at the cache check (`tStart`) and at response resolution
(`tResolve`). It returns the resolved data, whether a network call was
made, and the cache afterwards. -/

structure CacheEntry (δ : Type) where
  data : δ
  expiry : ℤ
  timestamp : ℤ

/-- JS `Map.get`. -/
def mapGet {δ : Type} (m : List (String × CacheEntry δ)) (k : String) :
    Option (CacheEntry δ) :=
  (m.find? (fun p => p.1 = k)).map Prod.snd

/-- JS `Map.set`: replace in place when the key exists, else append. -/
def mapSet {δ : Type} (m : List (String × CacheEntry δ)) (k : String)
    (v : CacheEntry δ) : List (String × CacheEntry δ) :=
  if (m.find? (fun p => p.1 = k)).isSome then
    m.map (fun p => if p.1 = k then (k, v) else p)
  else m ++ [(k, v)]

/-- JS `Map.delete`. -/
def mapDelete {δ : Type} (m : List (String × CacheEntry δ)) (k : String) :
    List (String × CacheEntry δ) :=
  m.filter (fun p => p.1 ≠ k)

/-- Source: `ApiService.getFromCache` (lines 388-400): return the data of a
non-expired entry; drop an expired entry. -/
def getFromCache {δ : Type} (cache : List (String × CacheEntry δ)) (key : String)
    (now : ℤ) : Option δ × List (String × CacheEntry δ) :=
  match mapGet cache key with
  | some cached =>
    if cached.expiry > now then (some cached.data, cache)
    else (none, mapDelete cache key)
  | none => (none, cache)

/-- Source: `ApiService.setCache` (lines 408-414). -/
def setCache {δ : Type} (cache : List (String × CacheEntry δ)) (key : String)
    (data : δ) (expiry : ℤ) (now : ℤ) : List (String × CacheEntry δ) :=
  mapSet cache key { data := data, expiry := now + expiry, timestamp := now }

/-- A network round trip: `ok` of the processed response plus its data. -/
structure GetOutcome (δ : Type) where
  ok : Bool
  value : δ

/-- Source: `ApiService.request` (lines 179-211) for a GET with `cache: true`,
run to completion: cached value returned synchronously on a fresh entry;
otherwise the network result, cached only when `response.ok`. -/
def requestGetCached {δ : Type} (cache : List (String × CacheEntry δ)) (url : String)
    (cacheExpiry : ℤ) (net : GetOutcome δ) (tStart tResolve : ℤ) :
    δ × Bool × List (String × CacheEntry δ) :=
  match getFromCache cache url tStart with
  | (some cached, cache1) => (cached, false, cache1)
  | (none, cache1) =>
    if net.ok then (net.value, true, setCache cache1 url net.value cacheExpiry tResolve)
    else (net.value, true, cache1)

lemma find?_mapSet_self {δ : Type} (m : List (String × CacheEntry δ)) (k : String)
    (v : CacheEntry δ) :
    (mapSet m k v).find? (fun p => p.1 = k) = some (k, v) := by
  induction m with
  | nil =>
    simp [mapSet, List.find?]
  | cons hd t ih =>
    by_cases hhd : hd.1 = k
    · have hsome : ((hd :: t).find? (fun p => p.1 = k)).isSome := by
        simp [List.find?, hhd]
      unfold mapSet
      rw [if_pos hsome]
      simp [List.find?, hhd]
    · have hfind : (hd :: t).find? (fun p => p.1 = k) = t.find? (fun p => p.1 = k) := by
        simp [List.find?, hhd]
      by_cases ht : (t.find? (fun p => p.1 = k)).isSome
      · unfold mapSet
        rw [hfind, if_pos ht]
        unfold mapSet at ih
        rw [if_pos ht] at ih
        simpa [List.find?, hhd] using ih
      · unfold mapSet
        rw [hfind, if_neg ht]
        unfold mapSet at ih
        rw [if_neg ht] at ih
        simpa [List.find?, hhd] using ih

lemma mapGet_mapSet_self {δ : Type} (m : List (String × CacheEntry δ)) (k : String)
    (v : CacheEntry δ) :
    mapGet (mapSet m k v) k = some v := by
  unfold mapGet
  rw [find?_mapSet_self]
  rfl

/-- Claim C5: for a GET with caching enabled that misses the cache and
resolves ok at time `tResolve`, the response data is cached under the full
URL with expiry `tResolve + TTL`; a second request issued at `t1` strictly
before that expiry returns the cached value with no network call and no
cache change; a second request at `t1` at or after the expiry does make a
network call (the expired entry is not returned). -/
theorem get_cache_ttl_policy {δ : Type} (cache : List (String × CacheEntry δ))
    (url : String) (ttl : ℤ) (net net2 : GetOutcome δ) (t0 t0r t1 t1r : ℤ)
    (hmiss : mapGet cache url = none) (hok : net.ok = true) :
    (requestGetCached cache url ttl net t0 t0r).2.1 = true
    ∧ mapGet ((requestGetCached cache url ttl net t0 t0r).2.2) url
        = some { data := net.value, expiry := t0r + ttl, timestamp := t0r }
    ∧ (t1 < t0r + ttl →
        requestGetCached ((requestGetCached cache url ttl net t0 t0r).2.2) url ttl net2 t1 t1r
          = (net.value, false, (requestGetCached cache url ttl net t0 t0r).2.2))
    ∧ (t0r + ttl ≤ t1 →
        (requestGetCached ((requestGetCached cache url ttl net t0 t0r).2.2)
          url ttl net2 t1 t1r).2.1 = true) := by
  have hfirst : requestGetCached cache url ttl net t0 t0r
      = (net.value, true, setCache cache url net.value ttl t0r) := by
    unfold requestGetCached getFromCache
    rw [hmiss]
    simp [hok]
  have hentry : mapGet (setCache cache url net.value ttl t0r) url
      = some { data := net.value, expiry := t0r + ttl, timestamp := t0r } :=
    mapGet_mapSet_self cache url _
  refine ⟨by rw [hfirst], by rw [hfirst]; exact hentry, ?_, ?_⟩
  · intro hfresh
    rw [hfirst]
    unfold requestGetCached getFromCache
    rw [hentry]
    simp only
    rw [if_pos (by simpa using hfresh)]
  · intro hstale
    rw [hfirst]
    unfold requestGetCached getFromCache
    rw [hentry]
    simp only
    rw [if_neg (by simpa using not_lt.mpr hstale)]
    by_cases h2 : net2.ok
    · simp [h2]
    · simp [h2]

/-- Witness for `get_cache_ttl_policy`: a concrete miss-then-hit. -/
theorem get_cache_ttl_policy_witness :
    requestGetCached
      ((requestGetCached ([] : List (String × CacheEntry ℕ)) "/games" 300000
        { ok := true, value := 42 } 0 10).2.2)
      "/games" 300000 { ok := true, value := 7 } 1000 1010
    = (42, false,
      (requestGetCached ([] : List (String × CacheEntry ℕ)) "/games" 300000
        { ok := true, value := 42 } 0 10).2.2) :=
  (get_cache_ttl_policy ([] : List (String × CacheEntry ℕ)) "/games" 300000
    { ok := true, value := 42 } { ok := true, value := 7 } 0 10 1000 1010
    rfl rfl).2.2.1 (by norm_num)

/-! ## Form validation engine (unnamed/part_002, class FormValidator)

The rule table is a list of `(field, rule specifiers)` pairs in declaration
order; the validator registry (`customValidators`, user-extensible via
`addValidator`) maps each rule name optionally to a predicate over the
value, the optional parameter and the whole form data; `messages` is the
message table. Values of the form are drawn from an arbitrary type `α` with
decidable equality (needed by the `confirmPassword` comparison). -/

structure FormValidator (α : Type) where
  rules : List (String × List String)
  validators : String → Option (α → Option String → (String → α) → Bool)
  messages : String → Option String

/-- JS string coercion of a possibly-undefined parameter, as produced by
`String.prototype.replace` on a non-string argument. -/
def jsStr : Option String → String
  | some s => s
  | none => "undefined"

/-- JS `String.prototype.replace` with a plain-string pattern: replace the
first occurrence only. -/
def replaceFirst (s pat rep : String) : String :=
  match s.splitOn pat with
  | [] => s
  | [_] => s
  | x :: rest => x ++ rep ++ String.intercalate pat rest

/-- Source: `FormValidator.formatMessage` (part_002 lines 1110-1118): template
substitution of `\x7bkey\x7d` placeholders, in parameter order. -/
def formatMessage {α : Type} (fv : FormValidator α) (rule : String)
    (params : List (String × Option String)) : String :=
  params.foldl
    (fun message kv => replaceFirst message ("\x7b" ++ kv.1 ++ "\x7d") (jsStr kv.2))
    ((fv.messages rule).getD "Invalid value")

/-- JS `String.prototype.split` with a one-character separator, over the
character list (same splitting as `String.splitOn ":"`, written by
structural recursion so that terms reduce). -/
def jsSplitAux (sep : Char) : List Char → List Char → List (List Char)
  | [], acc => [acc.reverse]
  | c :: cs, acc =>
    if c = sep then acc.reverse :: jsSplitAux sep cs []
    else jsSplitAux sep cs (c :: acc)

/-- JS split of the rule specifier on the colon character. -/
def jsSplitOnColon (s : String) : List String :=
  (jsSplitAux (':') s.data []).map String.mk

/-- Rule specifier destructuring into name and optional parameter: the split keeps
the first two parts; a missing second part is `undefined`. -/
def splitRule (rule : String) : String × Option String :=
  match jsSplitOnColon rule with
  | [] => ("", none)
  | [n] => (n, none)
  | n :: p :: _ => (n, some p)

/-- Source: `this.rules[field] || []`. -/
def fieldRulesOf {α : Type} (fv : FormValidator α) (field : String) : List String :=
  ((fv.rules.find? (fun p => p.1 = field)).map Prod.snd).getD []

/-- Whether one rule specifier fails on a value, read off the branches of
`validateField` (part_002 lines 1039-1070): `confirmPassword` fails when
the value differs from the named other field, `unique` and unknown rule
names never fail synchronously, and a registered validator fails when its
predicate returns false. -/
def ruleFailsB {α : Type} [DecidableEq α] (fv : FormValidator α) (rule : String)
    (value : α) (allData : String → α) : Bool :=
  let rn := splitRule rule
  if rn.1 = "confirmPassword" then decide (value ≠ allData (rn.2.getD "password"))
  else if rn.1 = "unique" then false
  else
    match fv.validators rn.1 with
    | none => false
    | some validator => !(validator value rn.2 allData)

/-- The message pushed for a failing rule specifier, read off the same
branches. -/
def ruleMessage {α : Type} (fv : FormValidator α) (field rule : String) : String :=
  let rn := splitRule rule
  if rn.1 = "confirmPassword" then
    formatMessage fv "confirmPassword" [("field", some (rn.2.getD "password"))]
  else
    formatMessage fv rn.1 [("min", rn.2), ("max", rn.2), ("field", some field)]

/-- The `for (const rule of fieldRules)` loop body of `validateField`
(part_002 lines 1039-1071), accumulating the error messages in order. -/
def collectFieldErrors {α : Type} [DecidableEq α] (fv : FormValidator α)
    (field : String) (value : α) (allData : String → α) :
    List String → List String
  | [] => []
  | rule :: rest =>
    let rn := splitRule rule
    if rn.1 = "confirmPassword" then
      (if value ≠ allData (rn.2.getD "password") then
        [formatMessage fv "confirmPassword" [("field", some (rn.2.getD "password"))]]
      else []) ++ collectFieldErrors fv field value allData rest
    else if rn.1 = "unique" then
      collectFieldErrors fv field value allData rest
    else
      match fv.validators rn.1 with
      | none => collectFieldErrors fv field value allData rest
      | some validator =>
        (if validator value rn.2 allData = false then
          [formatMessage fv rn.1 [("min", rn.2), ("max", rn.2), ("field", some field)]]
        else []) ++ collectFieldErrors fv field value allData rest

structure FieldResult where
  valid : Bool
  errors : List String

/-- Source: `FormValidator.validateField` (part_002 lines 1035-1077). -/
def FormValidator.validateField {α : Type} [DecidableEq α] (fv : FormValidator α)
    (field : String) (value : α) (allData : String → α) : FieldResult :=
  let errors := collectFieldErrors fv field value allData (fieldRulesOf fv field)
  { valid := errors.isEmpty, errors := errors }

structure ValidateResult where
  valid : Bool
  errors : List (String × String)
  fieldErrors : List (String × List String)

/-- The `for (const field in this.rules)` loop of `validate`
(part_002 lines 1091-1099). -/
def validateGo {α : Type} [DecidableEq α] (fv : FormValidator α)
    (data : String → α) : List (String × List String) → ValidateResult
  | [] => { valid := true, errors := [], fieldErrors := [] }
  | p :: rest =>
    let fr := fv.validateField p.1 (data p.1) data
    let r := validateGo fv data rest
    if fr.valid then r
    else { valid := false,
           errors := (p.1, fr.errors.headD "") :: r.errors,
           fieldErrors := (p.1, fr.errors) :: r.fieldErrors }

/-- Source: `FormValidator.validate` (part_002 lines 1084-1102). -/
def FormValidator.validate {α : Type} [DecidableEq α] (fv : FormValidator α)
    (data : String → α) : ValidateResult :=
  validateGo fv data fv.rules

lemma collectFieldErrors_eq {α : Type} [DecidableEq α] (fv : FormValidator α)
    (field : String) (value : α) (allData : String → α) (rules : List String) :
    collectFieldErrors fv field value allData rules
      = (rules.filter (fun rule => ruleFailsB fv rule value allData)).map
          (fun rule => ruleMessage fv field rule) := by
  induction rules with
  | nil => rfl
  | cons rule rest ih =>
    by_cases hcp : (splitRule rule).1 = "confirmPassword"
    · by_cases hne : value ≠ allData ((splitRule rule).2.getD "password")
      · simp [collectFieldErrors, ruleFailsB, ruleMessage, List.filter_cons, hcp, hne, ih]
      · simp [collectFieldErrors, ruleFailsB, ruleMessage, List.filter_cons, hcp, hne, ih]
    · by_cases huq : (splitRule rule).1 = "unique"
      · simp [collectFieldErrors, ruleFailsB, List.filter_cons, hcp, huq, ih]
      · cases hval : fv.validators (splitRule rule).1 with
        | none =>
          simp [collectFieldErrors, ruleFailsB, List.filter_cons, hcp, huq, hval, ih]
        | some validator =>
          by_cases hv : validator value (splitRule rule).2 allData = false
          · simp [collectFieldErrors, ruleFailsB, ruleMessage, List.filter_cons,
              hcp, huq, hval, hv, ih]
          · simp [collectFieldErrors, ruleFailsB, ruleMessage, List.filter_cons,
              hcp, huq, hval, hv, ih]

lemma validateField_valid_false_iff {α : Type} [DecidableEq α] (fv : FormValidator α)
    (field : String) (value : α) (allData : String → α) :
    (fv.validateField field value allData).valid = false ↔
      ∃ rule ∈ fieldRulesOf fv field, ruleFailsB fv rule value allData = true := by
  show (collectFieldErrors fv field value allData (fieldRulesOf fv field)).isEmpty = false ↔ _
  rw [collectFieldErrors_eq]
  constructor
  · intro h
    have hne : ((fieldRulesOf fv field).filter
        (fun rule => ruleFailsB fv rule value allData)).map
          (fun rule => ruleMessage fv field rule) ≠ [] := by
      intro hnil
      rw [hnil] at h
      simp at h
    rcases List.exists_mem_of_ne_nil _ hne with ⟨m, hm⟩
    rcases List.mem_map.mp hm with ⟨rule, hrule, _⟩
    exact ⟨rule, (List.mem_filter.mp hrule).1, (List.mem_filter.mp hrule).2⟩
  · intro ⟨rule, hmem, hfail⟩
    have hin : ruleMessage fv field rule
        ∈ ((fieldRulesOf fv field).filter
            (fun rule => ruleFailsB fv rule value allData)).map
          (fun rule => ruleMessage fv field rule) :=
      List.mem_map_of_mem _ (List.mem_filter.mpr ⟨hmem, hfail⟩)
    cases hemp : (((fieldRulesOf fv field).filter
        (fun rule => ruleFailsB fv rule value allData)).map
          (fun rule => ruleMessage fv field rule)).isEmpty
    · rfl
    · rw [List.isEmpty_iff] at hemp
      rw [hemp] at hin
      cases hin

lemma validateGo_spec {α : Type} [DecidableEq α] (fv : FormValidator α)
    (data : String → α) (l : List (String × List String)) :
    ((validateGo fv data l).valid = false ↔
      ∃ p ∈ l, (fv.validateField p.1 (data p.1) data).valid = false)
    ∧ (validateGo fv data l).fieldErrors
        = l.filterMap (fun p =>
            if (fv.validateField p.1 (data p.1) data).valid then none
            else some (p.1, (fv.validateField p.1 (data p.1) data).errors))
    ∧ (validateGo fv data l).errors
        = l.filterMap (fun p =>
            if (fv.validateField p.1 (data p.1) data).valid then none
            else some (p.1, (fv.validateField p.1 (data p.1) data).errors.headD "")) := by
  induction l with
  | nil => exact ⟨by simp [validateGo], rfl, rfl⟩
  | cons p rest ih =>
    by_cases hp : (fv.validateField p.1 (data p.1) data).valid
    · refine ⟨?_, ?_, ?_⟩
      · rw [show validateGo fv data (p :: rest) = validateGo fv data rest by
          simp [validateGo, hp]]
        rw [ih.1]
        constructor
        · intro ⟨q, hq, hfail⟩
          exact ⟨q, List.mem_cons_of_mem p hq, hfail⟩
        · intro ⟨q, hq, hfail⟩
          rcases List.mem_cons.mp hq with hq | hq
          · subst hq
            rw [hp] at hfail
            cases hfail
          · exact ⟨q, hq, hfail⟩
      · simp [validateGo, hp, ih.2.1]
      · simp [validateGo, hp, ih.2.2]
    · rw [Bool.not_eq_true] at hp
      refine ⟨?_, ?_, ?_⟩
      · constructor
        · intro _
          exact ⟨p, List.mem_cons_self p rest, hp⟩
        · intro _
          simp [validateGo, hp]
      · simp [validateGo, hp, ih.2.1]
      · simp [validateGo, hp, ih.2.2]

/-- Claim C6: `validate(data)` returns `valid = false` iff at least one
declared field fails at least one of its rules on that data; for every
field, `validateField` collects the messages of exactly the failing rules
in declaration order; the per-field entries of `fieldErrors` retain that
whole list while `errors` surfaces only its first element. -/
theorem validate_spec {α : Type} [DecidableEq α] (fv : FormValidator α)
    (data : String → α) :
    ((fv.validate data).valid = false ↔
      ∃ field ∈ fv.rules.map Prod.fst, ∃ rule ∈ fieldRulesOf fv field,
        ruleFailsB fv rule (data field) data = true)
    ∧ (∀ field value,
        (fv.validateField field value data).errors
          = ((fieldRulesOf fv field).filter
              (fun rule => ruleFailsB fv rule value data)).map
              (fun rule => ruleMessage fv field rule))
    ∧ (fv.validate data).fieldErrors
        = fv.rules.filterMap (fun p =>
            if (fv.validateField p.1 (data p.1) data).valid then none
            else some (p.1, (fv.validateField p.1 (data p.1) data).errors))
    ∧ (fv.validate data).errors
        = fv.rules.filterMap (fun p =>
            if (fv.validateField p.1 (data p.1) data).valid then none
            else some (p.1, (fv.validateField p.1 (data p.1) data).errors.headD "")) := by
  have hgo := validateGo_spec fv data fv.rules
  refine ⟨?_, ?_, hgo.2.1, hgo.2.2⟩
  · rw [show (fv.validate data) = validateGo fv data fv.rules from rfl, hgo.1]
    constructor
    · intro ⟨p, hp, hfail⟩
      exact ⟨p.1, List.mem_map_of_mem Prod.fst hp,
        (validateField_valid_false_iff fv p.1 (data p.1) data).mp hfail⟩
    · intro ⟨field, hf, hrule⟩
      rcases List.mem_map.mp hf with ⟨p, hp, hpf⟩
      subst hpf
      exact ⟨p, hp, (validateField_valid_false_iff fv p.1 (data p.1) data).mpr hrule⟩
  · intro field value
    show collectFieldErrors fv field value data (fieldRulesOf fv field) = _
    exact collectFieldErrors_eq fv field value data (fieldRulesOf fv field)

/-- A concrete validator instance for the witness: a single `required`
rule on `username`, over string values. -/
def sampleValidator : FormValidator String :=
  { rules := [("username", ["required"])],
    validators := fun n =>
      if n = "required" then some (fun v _ _ => !(v = "")) else none,
    messages := fun n =>
      if n = "required" then some "This field is required" else none }

/-- Witness for `validate_spec`: the empty username fails `required`. -/
theorem validate_spec_witness :
    (sampleValidator.validate (fun _ => "")).valid = false :=
  (validate_spec sampleValidator (fun _ => "")).1.mpr
    ⟨"username", by simp [sampleValidator], "required", by decide, by decide⟩

/-! ## Game similarity (unnamed/part_000, Game.getSimilarGames)

The candidate pipeline: drop the subject game by id, attach the pairwise
score, drop zero scores, sort by descending score (JS `Array.prototype.sort`
is stable, modelled by a stable insertion sort), take the first `limit`,
strip the scores. -/

/-- The pairwise similarity score (part_000 lines 1318-1343): common
entries are counted from the candidate side (`game.genre.filter(...)`). -/
def similarityScore (self other : Game) : ℕ :=
  (other.genre.filter (fun g => g ∈ self.genre)).length * 3
  + (other.tags.filter (fun t => t ∈ self.tags)).length * 2
  + (if other.developer = self.developer then 5 else 0)
  + (if other.publisher = self.publisher then 3 else 0)
  + (other.platform.filter (fun p => p ∈ self.platform)).length

structure ScoredGame where
  game : Game
  score : ℕ
deriving DecidableEq

/-- Source: `.filter(game => game.id !== this.id).map(game => ({game, score}))
.filter(item => item.score > 0)`. -/
def scoredCandidates (self : Game) (allGames : List Game) : List ScoredGame :=
  ((allGames.filter (fun g => g.id ≠ self.id)).map
      (fun g => { game := g, score := similarityScore self g })).filter
    (fun it => 0 < it.score)

/-- Descending order on scores: `(a, b) => b.score - a.score`. -/
def scoreGe (a b : ScoredGame) : Prop := b.score ≤ a.score

/-- Insert behind every element of score at least as high: together with a
left fold this is a stable descending sort, the behaviour ES2019
`Array.prototype.sort` guarantees for the comparator
`(a, b) => b.score - a.score`. -/
def insertByScoreDesc (x : ScoredGame) : List ScoredGame → List ScoredGame
  | [] => [x]
  | h :: t => if h.score < x.score then x :: h :: t else h :: insertByScoreDesc x t

/-- Source: `.sort((a, b) => b.score - a.score)` as a stable sort. -/
def sortByScoreDesc (l : List ScoredGame) : List ScoredGame :=
  l.foldl (fun acc x => insertByScoreDesc x acc) []

/-- Source: `Game.getSimilarGames` (part_000 lines 1315-1350). -/
def Game.getSimilarGames (self : Game) (allGames : List Game) (limit : ℕ) :
    List Game :=
  ((sortByScoreDesc (scoredCandidates self allGames)).take limit).map ScoredGame.game

lemma mem_insertByScoreDesc {x y : ScoredGame} {l : List ScoredGame} :
    y ∈ insertByScoreDesc x l ↔ y = x ∨ y ∈ l := by
  induction l with
  | nil => simp [insertByScoreDesc]
  | cons h t ih =>
    unfold insertByScoreDesc
    by_cases hc : h.score < x.score
    · rw [if_pos hc]
      simp
    · rw [if_neg hc]
      simp [ih]
      tauto

lemma sorted_insertByScoreDesc {x : ScoredGame} {l : List ScoredGame}
    (h : List.Sorted scoreGe l) : List.Sorted scoreGe (insertByScoreDesc x l) := by
  induction l with
  | nil => simp [insertByScoreDesc, scoreGe]
  | cons hd t ih =>
    rw [List.sorted_cons] at h
    unfold insertByScoreDesc
    by_cases hc : hd.score < x.score
    · rw [if_pos hc, List.sorted_cons]
      constructor
      · intro b hb
        rcases List.mem_cons.mp hb with rfl | hb
        · exact le_of_lt hc
        · exact le_trans (h.1 b hb) (le_of_lt hc)
      · rw [List.sorted_cons]
        exact h
    · rw [if_neg hc, List.sorted_cons]
      constructor
      · intro b hb
        rcases mem_insertByScoreDesc.mp hb with rfl | hb
        · exact le_of_not_lt hc
        · exact h.1 b hb
      · exact ih h.2

lemma filter_insertByScoreDesc (s : ℕ) {x : ScoredGame} {l : List ScoredGame}
    (h : List.Sorted scoreGe l) :
    (insertByScoreDesc x l).filter (fun it => it.score = s)
      = l.filter (fun it => it.score = s) ++ (if x.score = s then [x] else []) := by
  induction l with
  | nil =>
    by_cases hx : x.score = s <;> simp [insertByScoreDesc, hx]
  | cons hd t ih =>
    rw [List.sorted_cons] at h
    unfold insertByScoreDesc
    by_cases hc : hd.score < x.score
    · rw [if_pos hc]
      by_cases hx : x.score = s
      · have hnone : (hd :: t).filter (fun it => it.score = s) = [] := by
          rw [List.filter_eq_nil_iff]
          intro b hb
          rcases List.mem_cons.mp hb with rfl | hb
          · simp only [decide_eq_true_eq]
            omega
          · have hble := h.1 b hb
            simp only [decide_eq_true_eq]
            unfold scoreGe at hble
            omega
        have hfx : (x :: hd :: t).filter (fun it => it.score = s)
            = x :: (hd :: t).filter (fun it => it.score = s) :=
          List.filter_cons_of_pos (by simpa using hx)
        rw [hfx, hnone]
        simp [hx]
      · have hfx : (x :: hd :: t).filter (fun it => it.score = s)
            = (hd :: t).filter (fun it => it.score = s) :=
          List.filter_cons_of_neg (by simpa using hx)
        rw [hfx]
        simp [hx]
    · rw [if_neg hc]
      simp only [List.filter_cons]
      by_cases hhd : hd.score = s
      · simp [hhd, ih h.2]
      · simp [hhd, ih h.2]

lemma foldl_insertByScoreDesc_spec (l : List ScoredGame) :
    ∀ acc : List ScoredGame, List.Sorted scoreGe acc →
      List.Sorted scoreGe (l.foldl (fun acc x => insertByScoreDesc x acc) acc)
      ∧ ∀ s : ℕ,
        (l.foldl (fun acc x => insertByScoreDesc x acc) acc).filter
            (fun it => it.score = s)
          = acc.filter (fun it => it.score = s)
            ++ l.filter (fun it => it.score = s) := by
  induction l with
  | nil =>
    intro acc hacc
    exact ⟨hacc, by simp⟩
  | cons x t ih =>
    intro acc hacc
    simp only [List.foldl_cons]
    have h1 := ih (insertByScoreDesc x acc) (sorted_insertByScoreDesc hacc)
    refine ⟨h1.1, ?_⟩
    intro s
    rw [h1.2 s, filter_insertByScoreDesc s hacc]
    simp only [List.filter_cons]
    by_cases hx : x.score = s
    · simp [hx, List.append_assoc]
    · simp [hx]

lemma mem_foldl_insertByScoreDesc {y : ScoredGame} (l : List ScoredGame) :
    ∀ acc : List ScoredGame,
      (y ∈ l.foldl (fun acc x => insertByScoreDesc x acc) acc ↔ y ∈ acc ∨ y ∈ l) := by
  induction l with
  | nil => simp
  | cons x t ih =>
    intro acc
    simp only [List.foldl_cons]
    rw [ih (insertByScoreDesc x acc)]
    rw [mem_insertByScoreDesc]
    simp
    tauto

/-- Claim C7: `getSimilarGames` returns at most `limit` games, never the
subject game itself (no game with the subject id), never a candidate of
similarity score 0; the scored list underneath is sorted by descending
score, and sorting preserves the relative order of equal-score candidates
(it commutes with filtering on any fixed score), so ties keep the original
collection order. -/
theorem getSimilarGames_spec (self : Game) (allGames : List Game) (limit : ℕ) :
    (self.getSimilarGames allGames limit).length ≤ limit
    ∧ (∀ g ∈ self.getSimilarGames allGames limit, g.id ≠ self.id)
    ∧ (∀ g ∈ self.getSimilarGames allGames limit, 0 < similarityScore self g)
    ∧ List.Sorted scoreGe ((sortByScoreDesc (scoredCandidates self allGames)).take limit)
    ∧ (∀ s : ℕ,
        (sortByScoreDesc (scoredCandidates self allGames)).filter
            (fun it => it.score = s)
          = (scoredCandidates self allGames).filter (fun it => it.score = s)) := by
  have hsort := foldl_insertByScoreDesc_spec (scoredCandidates self allGames) []
    (by simp)
  have hmem : ∀ g ∈ self.getSimilarGames allGames limit,
      g.id ≠ self.id ∧ 0 < similarityScore self g := by
    intro g hg
    unfold Game.getSimilarGames at hg
    rcases List.mem_map.mp hg with ⟨sg, hsg, rfl⟩
    have hsg2 : sg ∈ sortByScoreDesc (scoredCandidates self allGames) :=
      List.mem_of_mem_take hsg
    have hsg3 : sg ∈ scoredCandidates self allGames := by
      rw [sortByScoreDesc] at hsg2
      rcases (mem_foldl_insertByScoreDesc _ []).mp hsg2 with h | h
      · cases h
      · exact h
    unfold scoredCandidates at hsg3
    have hpos := List.of_mem_filter hsg3
    have hsg4 := List.mem_of_mem_filter hsg3
    rcases List.mem_map.mp hsg4 with ⟨g0, hg0, hg0eq⟩
    have hid := List.of_mem_filter hg0
    subst hg0eq
    simp only [decide_eq_true_eq] at hid hpos
    exact ⟨hid, hpos⟩
  refine ⟨?_, fun g hg => (hmem g hg).1, fun g hg => (hmem g hg).2, ?_, ?_⟩
  · unfold Game.getSimilarGames
    rw [List.length_map]
    exact List.length_take_le limit _
  · exact List.Pairwise.sublist (List.take_sublist limit _) hsort.1
  · intro s
    rw [sortByScoreDesc, hsort.2 s]
    simp

/-- A concrete subject game for the similarity witness. -/
def sampleGameA : Game :=
  { id := "a", developer := "dev", publisher := "pub", genre := ["rpg"],
    tags := [], platform := [], ratings := [],
    stats := { averageRating := 0, ratingsCount := 0 } }

/-- A concrete candidate sharing genre, developer and publisher. -/
def sampleGameB : Game :=
  { id := "b", developer := "dev", publisher := "pub", genre := ["rpg"],
    tags := [], platform := [], ratings := [],
    stats := { averageRating := 0, ratingsCount := 0 } }

/-- Witness for `getSimilarGames_spec` on a two-game catalogue: the result
respects the limit and its member differs from the subject in id. -/
theorem getSimilarGames_spec_witness :
    (Game.getSimilarGames sampleGameA [sampleGameA, sampleGameB] 2).length ≤ 2
    ∧ sampleGameB.id ≠ sampleGameA.id :=
  have h := getSimilarGames_spec sampleGameA [sampleGameA, sampleGameB] 2
  ⟨h.1, h.2.1 sampleGameB (by decide)⟩

end GameVault
